import Mathlib

/-! Shallow embedding of the Conway Game of Life engine implemented in
`src/lib.rs` of the repository (struct `Universe` and its methods), together
with proofs settling the specification claims about it.

Modelling conventions:
* The `fixedbitset::FixedBitSet` backing storage is modelled as `List Bool`.
  Its `Index` impl reads out-of-range bits as dead (`false`), since the crate
  keeps unused bits zero; its `set` method asserts the bit is below the
  length, so a write is modelled as an `Option`, with `none` standing for the
  bounds panic.
* `u32` / `usize` values are modelled as `Nat`, and the `i32` offset
  arithmetic of the pattern stamps as `Int`; none of the claims exercises
  machine-integer overflow.
* `js_sys::Math::random() < 0.5` draws are modelled by an oracle
  `rand : Nat → Bool` giving the boolean drawn at each loop iteration.
* `&mut self` methods become functions `Universe → ... → Universe`
  (or `Option Universe` where a bounds panic is reachable).
* `for` loops over ranges become structural recursion over the list of the
  iterated values, in iteration order.
-/

namespace GoL

/-- Read of bit `i` of a `FixedBitSet` (its `Index` impl): an out-of-range
bit reads as dead. -/
def fbsGet (l : List Bool) (i : Nat) : Bool := l.getD i false

/-- Write of `FixedBitSet::set`: the crate asserts `i` is below the length,
so `none` models the panic. -/
def fbsSet (l : List Bool) (i : Nat) (b : Bool) : Option (List Bool) :=
  if i < l.length then some (l.set i b) else none

/-- The `Universe` struct of `src/lib.rs`: dimensions, the double buffer
(`current` and `next` generations) and the delta list `changed_cells`. -/
structure Universe where
  width : Nat
  height : Nat
  current : List Bool
  next : List Bool
  changed_cells : List Nat
deriving DecidableEq

/-- Model of `Universe::get_index`: row-major index `row * width + column`. -/
def Universe.get_index (u : Universe) (row column : Nat) : Nat :=
  row * u.width + column

/-- The local `north` of `Universe::live_neighbor_count`:
`if row == 0 { height - 1 } else { row - 1 }`. -/
def northOf (u : Universe) (row : Nat) : Nat :=
  if row = 0 then u.height - 1 else row - 1

/-- The local `south` of `Universe::live_neighbor_count`:
`if row == height - 1 { 0 } else { row + 1 }`. -/
def southOf (u : Universe) (row : Nat) : Nat :=
  if row = u.height - 1 then 0 else row + 1

/-- The local `west` of `Universe::live_neighbor_count`:
`if column == 0 { width - 1 } else { column - 1 }`. -/
def westOf (u : Universe) (column : Nat) : Nat :=
  if column = 0 then u.width - 1 else column - 1

/-- The local `east` of `Universe::live_neighbor_count`:
`if column == width - 1 { 0 } else { column + 1 }`. -/
def eastOf (u : Universe) (column : Nat) : Nat :=
  if column = u.width - 1 then 0 else column + 1

/-- Model of `Universe::live_neighbor_count`: the eight toroidal lookups, accumulated
in source order NW, N, NE, W, E, SW, S, SE. -/
def Universe.live_neighbor_count (u : Universe) (row column : Nat) : Nat :=
  (fbsGet u.current (u.get_index (northOf u row) (westOf u column))).toNat +
  (fbsGet u.current (u.get_index (northOf u row) column)).toNat +
  (fbsGet u.current (u.get_index (northOf u row) (eastOf u column))).toNat +
  (fbsGet u.current (u.get_index row (westOf u column))).toNat +
  (fbsGet u.current (u.get_index row (eastOf u column))).toNat +
  (fbsGet u.current (u.get_index (southOf u row) (westOf u column))).toNat +
  (fbsGet u.current (u.get_index (southOf u row) column)).toNat +
  (fbsGet u.current (u.get_index (southOf u row) (eastOf u column))).toNat

/-- The `match (old_value, live_neighbors)` of `Universe::tick`, with the
source's arm order (underpopulation, survival, overpopulation, reproduction,
otherwise-unchanged; first match wins). -/
def nextCellValue (oldValue : Bool) (liveNeighbors : Nat) : Bool :=
  if oldValue = true ∧ liveNeighbors < 2 then false
  else if oldValue = true ∧ (liveNeighbors = 2 ∨ liveNeighbors = 3) then true
  else if oldValue = true ∧ liveNeighbors > 3 then false
  else if oldValue = false ∧ liveNeighbors = 3 then true
  else oldValue

/-- The `(row, column)` pairs visited by the nested
`for row in 0..height { for column in 0..width { ... } }` loops, in
iteration (row-major) order. -/
def rowMajor (height width : Nat) : List (Nat × Nat) :=
  (List.range height).flatMap (fun r => (List.range width).map (fun c => (r, c)))

/-- The body of `Universe::tick`'s nested loops, threading the `next` buffer
and the `changed_cells` accumulator through the visited cells. All reads go
to the `current` snapshot of `u`; writes go only to the threaded buffer. -/
def tickLoop (u : Universe) (ps : List (Nat × Nat)) (nxt : List Bool)
    (changed : List Nat) : Option (List Bool × List Nat) :=
  match ps with
  | [] => some (nxt, changed)
  | p :: rest =>
    let index := u.get_index p.1 p.2
    let oldValue := fbsGet u.current index
    let newValue := nextCellValue oldValue (u.live_neighbor_count p.1 p.2)
    match fbsSet nxt index newValue with
    | none => none
    | some nxt2 =>
      tickLoop u rest nxt2 (if newValue != oldValue then changed ++ [index] else changed)

/-- Model of `Universe::tick`: clear `changed_cells`, compute every cell of the next
generation into `next` from the read-only `current`, then swap the buffers. -/
def Universe.tick (u : Universe) : Option Universe :=
  match tickLoop u (rowMajor u.height u.width) u.next [] with
  | none => none
  | some st =>
    some { width := u.width, height := u.height,
           current := st.1, next := u.current, changed_cells := st.2 }

/-- Model of `Universe::toggle_cell`: read the bit at `get_index(row, column)` and
write back its negation (no bounds validation of `row`/`column`). -/
def Universe.toggle_cell (u : Universe) (row column : Nat) : Option Universe :=
  let index := u.get_index row column
  let currentVal := fbsGet u.current index
  match fbsSet u.current index (!currentVal) with
  | none => none
  | some cur => some { u with current := cur }

/-- The loop of `Universe::randomize` over `0..size`, with `rand i` the
boolean drawn from `js_sys::Math::random() < 0.5` at iteration `i`. -/
def randomizeLoop (rand : Nat → Bool) (is : List Nat) (cur : List Bool) :
    Option (List Bool) :=
  match is with
  | [] => some cur
  | i :: rest =>
    match fbsSet cur i (rand i) with
    | none => none
    | some cur2 => randomizeLoop rand rest cur2

/-- Model of `Universe::randomize`: set each of the `width * height` bits to an
independent random draw. -/
def Universe.randomize (u : Universe) (rand : Nat → Bool) : Option Universe :=
  match randomizeLoop rand (List.range (u.width * u.height)) u.current with
  | none => none
  | some cur => some { u with current := cur }

/-- The loop of `Universe::clear` over `0..size`: kill each bit and push its
index onto the threaded `changed_cells` accumulator. -/
def clearLoop (is : List Nat) (cur : List Bool) (changed : List Nat) :
    Option (List Bool × List Nat) :=
  match is with
  | [] => some (cur, changed)
  | i :: rest =>
    match fbsSet cur i false with
    | none => none
    | some cur2 => clearLoop rest cur2 (changed ++ [i])

/-- Model of `Universe::clear`: clear `changed_cells`, then set every cell dead,
recording every visited index in `changed_cells`. -/
def Universe.clear (u : Universe) : Option Universe :=
  match clearLoop (List.range (u.width * u.height)) u.current [] with
  | none => none
  | some st => some { u with current := st.1, changed_cells := st.2 }

/-- The loop of `Universe::set_width` / `Universe::set_height` writing
`false` over the freshly allocated buffer (every write is in range, so no
panic path exists here). -/
def deadLoop (is : List Nat) (cur : List Bool) : List Bool :=
  match is with
  | [] => cur
  | i :: rest => deadLoop rest (cur.set i false)

/-- Model of `Universe::set_width`: store the new width, then replace `current` with a
freshly allocated all-dead buffer of `width * height` bits. The `next`
buffer and `changed_cells` are left untouched. -/
def Universe.set_width (u : Universe) (width : Nat) : Universe :=
  let size := width * u.height
  { u with width := width,
           current := deadLoop (List.range size) (List.replicate size false) }

/-- Model of `Universe::set_height`: store the new height, then replace `current`
with a freshly allocated all-dead buffer of `height * width` bits. The
`next` buffer and `changed_cells` are left untouched. -/
def Universe.set_height (u : Universe) (height : Nat) : Universe :=
  let size := height * u.width
  { u with height := height,
           current := deadLoop (List.range size) (List.replicate size false) }

/-- The loop of `Universe::set_cells`: mark each listed `(row, col)` alive
in the threaded buffer. -/
def setCellsLoop (u : Universe) (ps : List (Nat × Nat)) (cur : List Bool) :
    Option (List Bool) :=
  match ps with
  | [] => some cur
  | p :: rest =>
    match fbsSet cur (u.get_index p.1 p.2) true with
    | none => none
    | some cur2 => setCellsLoop u rest cur2

/-- Model of `Universe::set_cells`: mark the listed `(row, col)` coordinates alive in
`current` (never kills a cell, no bounds validation). -/
def Universe.set_cells (u : Universe) (cells : List (Nat × Nat)) : Option Universe :=
  match setCellsLoop u cells u.current with
  | none => none
  | some cur => some { u with current := cur }

/-- Rust's `i32::rem_euclid` followed by the cast to `u32`: a true modulo
whose result is non-negative; dividing by zero panics (`none`). -/
def remEuclidToNat (a m : Int) : Option Nat :=
  if m = 0 then none else some (a.emod m).toNat

/-- The glider offset table of `Universe::insert_glider_at`. -/
def glider_offsets : List (Int × Int) :=
  [(-1, 0), (0, 1), (1, -1), (1, 0), (1, 1)]

/-- The pulsar offset table of `Universe::insert_pulsar_at`. -/
def pulsar_offsets : List (Int × Int) :=
  [(-4, -2), (-4, -1), (-4, 1), (-4, 2),
   (-2, -4), (-2, -3), (-2, -2), (-2, -1),
   (-2, 1), (-2, 2), (-2, 3), (-2, 4),
   (0, -4), (0, -3), (0, 3), (0, 4),
   (2, -4), (2, -3), (2, -2), (2, -1),
   (2, 1), (2, 2), (2, 3), (2, 4),
   (4, -2), (4, -1), (4, 1), (4, 2)]

/-- The position loop shared by both pattern stamps: each offset `(dr, dc)`
is wrapped to `((row + dr).rem_euclid(height), (column + dc).rem_euclid(width))`. -/
def wrapOffsets (u : Universe) (row column : Nat) (offs : List (Int × Int)) :
    Option (List (Nat × Nat)) :=
  match offs with
  | [] => some []
  | d :: rest =>
    match remEuclidToNat ((row : Int) + d.1) (u.height : Int),
          remEuclidToNat ((column : Int) + d.2) (u.width : Int) with
    | some r, some c =>
      match wrapOffsets u row column rest with
      | none => none
      | some ps => some ((r, c) :: ps)
    | _, _ => none

/-- The common shape of both pattern stamps: wrap the offset table around the
anchor, then `set_cells` the wrapped positions. -/
def insertPatternAt (u : Universe) (row column : Nat) (offs : List (Int × Int)) :
    Option Universe :=
  match wrapOffsets u row column offs with
  | none => none
  | some positions => u.set_cells positions

/-- Model of `Universe::insert_glider_at`. -/
def Universe.insert_glider_at (u : Universe) (row column : Nat) : Option Universe :=
  insertPatternAt u row column glider_offsets

/-- Model of `Universe::insert_pulsar_at`. -/
def Universe.insert_pulsar_at (u : Universe) (row column : Nat) : Option Universe :=
  insertPatternAt u row column pulsar_offsets

/-- The seeding loop of `Universe::new`: cell `i` is alive iff
`i % 2 == 0 || i % 7 == 0`. -/
def initLoop (is : List Nat) (cur : List Bool) : List Bool :=
  match is with
  | [] => cur
  | i :: rest => initLoop rest (cur.set i (decide (i % 2 = 0) || decide (i % 7 = 0)))

/-- Model of `Universe::new`: a 64 × 64 universe with the deterministic seed pattern
and an all-dead `next` buffer. -/
def Universe.new : Universe :=
  let width := 64
  let height := 64
  let size := width * height
  { width := width, height := height,
    current := initLoop (List.range size) (List.replicate size false),
    next := List.replicate size false,
    changed_cells := [] }

/-- Iterated `tick` calls (`tickN n u` performs `n` ticks, propagating a
panic). -/
def Universe.tickN : Nat → Universe → Option Universe
  | 0, u => some u
  | n + 1, u =>
    match u.tick with
    | none => none
    | some v => Universe.tickN n v

/-! Basic lemmas about the bit-level reads and writes. -/

theorem fbsGet_eq_getElem (l : List Bool) (i : Nat) (h : i < l.length) :
    fbsGet l i = l[i] := by
  rw [fbsGet, List.getD_eq_getElem?_getD, List.getElem?_eq_getElem h]
  rfl

theorem fbsGet_of_le (l : List Bool) (i : Nat) (h : l.length ≤ i) :
    fbsGet l i = false :=
  List.getD_eq_default _ _ h

theorem fbsGet_set_self (l : List Bool) (i : Nat) (b : Bool) (h : i < l.length) :
    fbsGet (l.set i b) i = b := by
  rw [fbsGet, List.getD_eq_getElem?_getD, List.getElem?_set_self',
    List.getElem?_eq_getElem h]
  rfl

theorem fbsGet_set_ne (l : List Bool) (i j : Nat) (b : Bool) (h : i ≠ j) :
    fbsGet (l.set i b) j = fbsGet l j := by
  rw [fbsGet, fbsGet, List.getD_eq_getElem?_getD, List.getD_eq_getElem?_getD,
    List.getElem?_set_ne h]

theorem list_eq_of_fbsGet (l₁ l₂ : List Bool) (hlen : l₁.length = l₂.length)
    (h : ∀ j, fbsGet l₁ j = fbsGet l₂ j) : l₁ = l₂ :=
  List.ext_getElem hlen (fun i h₁ h₂ => by
    rw [← fbsGet_eq_getElem _ _ h₁, ← fbsGet_eq_getElem _ _ h₂]
    exact h i)

theorem fbsGet_map_range (n : Nat) (f : Nat → Bool) (i : Nat) (h : i < n) :
    fbsGet ((List.range n).map f) i = f i := by
  have hl : i < ((List.range n).map f).length := by simpa using h
  rw [fbsGet_eq_getElem _ _ hl]
  simp

theorem fbsGet_replicate_false (n j : Nat) :
    fbsGet (List.replicate n false) j = false := by
  by_cases h : j < n
  · rw [fbsGet_eq_getElem _ _ (by simpa using h)]
    simp
  · exact fbsGet_of_le _ _ (by simpa using Nat.le_of_not_lt h)

/-- The net effect of the rule `match`: the next state is alive exactly for
a live cell with two or three live neighbors or a dead cell with three. -/
theorem nextCellValue_iff (oldValue : Bool) (n : Nat) :
    nextCellValue oldValue n = true ↔
      ((oldValue = true ∧ (n = 2 ∨ n = 3)) ∨ (oldValue = false ∧ n = 3)) := by
  cases oldValue <;> simp [nextCellValue] <;> omega

/-! Lemmas about the row-major iteration space. -/

theorem mem_rowMajor (h w r c : Nat) :
    (r, c) ∈ rowMajor h w ↔ r < h ∧ c < w := by
  simp [rowMajor]

theorem map_index_rowMajor (h w : Nat) :
    (rowMajor h w).map (fun p => p.1 * w + p.2) = List.range (h * w) := by
  induction h with
  | zero => simp [rowMajor]
  | succ n ih =>
    have h1 : rowMajor (n + 1) w =
        rowMajor n w ++ (List.range w).map (fun c => (n, c)) := by
      rw [rowMajor, List.range_succ n, List.flatMap_append]
      simp [rowMajor]
    have h2 : (n + 1) * w = n * w + w := by ring
    rw [h1, List.map_append, ih, List.map_map, h2, List.range_add]
    congr 1

theorem index_lt (r c h w : Nat) (hr : r < h) (hc : c < w) :
    r * w + c < h * w := by
  calc r * w + c < r * w + w := by omega
    _ = (r + 1) * w := by ring
    _ ≤ h * w := mul_le_mul_right' (Nat.succ_le_of_lt hr) w

theorem index_div (r c w : Nat) (hc : c < w) : (r * w + c) / w = r := by
  have hw : 0 < w := Nat.lt_of_le_of_lt (Nat.zero_le c) hc
  rw [Nat.mul_comm, Nat.mul_add_div hw, Nat.div_eq_of_lt hc, Nat.add_zero]

theorem index_mod (r c w : Nat) (hc : c < w) : (r * w + c) % w = c := by
  rw [Nat.mul_comm, Nat.mul_add_mod, Nat.mod_eq_of_lt hc]

theorem index_inj (r c r' c' w : Nat) (hc : c < w) (hc' : c' < w)
    (h : r * w + c = r' * w + c') : r = r' ∧ c = c' := by
  constructor
  · have h1 := congrArg (· / w) h
    simpa [index_div _ _ _ hc, index_div _ _ _ hc'] using h1
  · have h1 := congrArg (· % w) h
    simpa [index_mod _ _ _ hc, index_mod _ _ _ hc'] using h1

theorem nodup_index_rowMajor (h w : Nat) :
    ((rowMajor h w).map (fun p => p.1 * w + p.2)).Nodup := by
  rw [map_index_rowMajor]
  exact List.nodup_range (h * w)

/-! General list helpers used to convert loop results to closed forms. -/

theorem filterMap_congr_mem {α β : Type} (l : List α) (f g : α → Option β)
    (h : ∀ a ∈ l, f a = g a) : l.filterMap f = l.filterMap g := by
  induction l with
  | nil => rfl
  | cons a t ih =>
    rw [List.filterMap_cons, List.filterMap_cons, h a (by simp)]
    rw [ih (fun x hx => h x (by simp [hx]))]

theorem filterMap_if_eq_filter {α : Type} (l : List α) (q : α → Bool) :
    l.filterMap (fun a => if q a then some a else none) = l.filter q := by
  induction l with
  | nil => rfl
  | cons a t ih =>
    rw [List.filterMap_cons, List.filter_cons]
    by_cases hq : q a <;> simp [hq, ih]

theorem set_replicate_false (n i : Nat) :
    (List.replicate n false).set i false = List.replicate n false :=
  List.set_replicate_self

theorem deadLoop_replicate (is : List Nat) (n : Nat) :
    deadLoop is (List.replicate n false) = List.replicate n false := by
  induction is with
  | nil => rfl
  | cons i rest ih => rw [deadLoop, set_replicate_false, ih]

/-! The tick loop invariant and the closed form of `tick`. -/

/-- The next value the tick loop computes for the cell at `p`, read entirely
from the pre-tick `current` snapshot. -/
def newValAt (u : Universe) (p : Nat × Nat) : Bool :=
  nextCellValue (fbsGet u.current (u.get_index p.1 p.2))
    (u.live_neighbor_count p.1 p.2)

/-- The old value of the cell at `p` in the pre-tick snapshot. -/
def oldValAt (u : Universe) (p : Nat × Nat) : Bool :=
  fbsGet u.current (u.get_index p.1 p.2)

/-- Invariant of `tickLoop`: over distinct in-range indices it succeeds, the
buffer keeps its length, each visited cell holds its computed value, every
other bit is untouched, and the changed accumulator grows by exactly the
visited cells whose value flipped, in visit order. -/
theorem tickLoop_spec (u : Universe) (ps : List (Nat × Nat)) :
    ∀ (nxt : List Bool) (changed : List Nat),
      (∀ p ∈ ps, u.get_index p.1 p.2 < nxt.length) →
      ((ps.map (fun p => u.get_index p.1 p.2)).Nodup) →
      ∃ nl, tickLoop u ps nxt changed =
          some (nl, changed ++ ps.filterMap (fun p =>
            if newValAt u p != oldValAt u p
            then some (u.get_index p.1 p.2) else none)) ∧
        nl.length = nxt.length ∧
        (∀ p ∈ ps, fbsGet nl (u.get_index p.1 p.2) = newValAt u p) ∧
        (∀ j, (∀ p ∈ ps, u.get_index p.1 p.2 ≠ j) → fbsGet nl j = fbsGet nxt j) := by
  induction ps with
  | nil =>
    intro nxt changed _ _
    exact ⟨nxt, by simp [tickLoop], rfl, by simp, fun j _ => rfl⟩
  | cons q rest ih =>
    intro nxt changed hlt hnd
    have hq : u.get_index q.1 q.2 < nxt.length := hlt q (by simp)
    have hnd_rest : (rest.map (fun p => u.get_index p.1 p.2)).Nodup :=
      (List.nodup_cons.mp (by simpa using hnd)).2
    have hq_notin : u.get_index q.1 q.2 ∉ rest.map (fun p => u.get_index p.1 p.2) :=
      (List.nodup_cons.mp (by simpa using hnd)).1
    have hlt_rest : ∀ p ∈ rest, u.get_index p.1 p.2 < (nxt.set (u.get_index q.1 q.2) (newValAt u q)).length := by
      intro p hp
      rw [List.length_set]
      exact hlt p (by simp [hp])
    obtain ⟨nl, heq, hlen, hmem, hframe⟩ :=
      ih (nxt.set (u.get_index q.1 q.2) (newValAt u q))
        (if newValAt u q != oldValAt u q
         then changed ++ [u.get_index q.1 q.2] else changed)
        hlt_rest hnd_rest
    have hstep : tickLoop u (q :: rest) nxt changed =
        tickLoop u rest (nxt.set (u.get_index q.1 q.2) (newValAt u q))
          (if newValAt u q != oldValAt u q
           then changed ++ [u.get_index q.1 q.2] else changed) := by
      rw [tickLoop]
      simp only [fbsSet, if_pos hq]
      rfl
    refine ⟨nl, ?_, ?_, ?_, ?_⟩
    · rw [hstep, heq, List.filterMap_cons]
      by_cases hflip : newValAt u q != oldValAt u q
      · rw [if_pos hflip, if_pos hflip, List.append_assoc]
        rfl
      · rw [if_neg hflip, if_neg hflip]
    · rw [hlen, List.length_set]
    · intro p hp
      rcases List.mem_cons.mp hp with hpq | hp_rest
      · subst hpq
        have hne : ∀ p' ∈ rest, u.get_index p'.1 p'.2 ≠ u.get_index p.1 p.2 := by
          intro p' hp' hcontra
          exact hq_notin (by
            rw [← hcontra] at hq_notin ⊢
            exact List.mem_map.mpr ⟨p', hp', hcontra ▸ rfl⟩)
        rw [hframe _ hne, fbsGet_set_self _ _ _ hq]
      · exact hmem p hp_rest
    · intro j hj
      have hjq : u.get_index q.1 q.2 ≠ j := hj q (by simp)
      rw [hframe j (fun p hp => hj p (by simp [hp])), fbsGet_set_ne _ _ _ _ hjq]

/-- The value `tick` computes for flat index `i` of the grid. -/
def newAt (u : Universe) (i : Nat) : Bool :=
  nextCellValue (fbsGet u.current i)
    (u.live_neighbor_count (i / u.width) (i % u.width))

/-- Closed form of `Universe::tick` for a well-sized `next` buffer: the
buffers swap, every cell of the new generation is computed from the pre-tick
snapshot, and `changed_cells` is rebuilt from scratch as the ascending
(row-major) list of the flipped indices. -/
theorem tick_eq (u : Universe) (hWF : u.next.length = u.width * u.height) :
    u.tick = some
      { width := u.width, height := u.height,
        current := (List.range (u.width * u.height)).map (newAt u),
        next := u.current,
        changed_cells := (List.range (u.width * u.height)).filter
          (fun i => newAt u i != fbsGet u.current i) } := by
  have hsize : u.height * u.width = u.width * u.height := Nat.mul_comm _ _
  have hlt : ∀ p ∈ rowMajor u.height u.width,
      u.get_index p.1 p.2 < u.next.length := by
    intro p hp
    have hp' := (mem_rowMajor u.height u.width p.1 p.2).mp (by simpa using hp)
    rw [hWF, ← hsize]
    exact index_lt _ _ _ _ hp'.1 hp'.2
  have hnd : ((rowMajor u.height u.width).map
      (fun p => u.get_index p.1 p.2)).Nodup := by
    have : (fun (p : Nat × Nat) => u.get_index p.1 p.2) =
        (fun p => p.1 * u.width + p.2) := rfl
    rw [this]
    exact nodup_index_rowMajor u.height u.width
  obtain ⟨nl, heq, hlen, hmem, hframe⟩ := tickLoop_spec u
    (rowMajor u.height u.width) u.next [] hlt hnd
  have hdecomp : ∀ i, i < u.width * u.height →
      ((i / u.width, i % u.width) ∈ rowMajor u.height u.width ∧
        u.get_index (i / u.width) (i % u.width) = i) := by
    intro i hi
    have hw : 0 < u.width := by
      rcases Nat.eq_zero_or_pos u.width with h0 | h0
      · rw [h0] at hi; omega
      · exact h0
    have hdiv : i / u.width < u.height := Nat.div_lt_of_lt_mul hi
    have hmod : i % u.width < u.width := Nat.mod_lt i hw
    refine ⟨(mem_rowMajor _ _ _ _).mpr ⟨hdiv, hmod⟩, ?_⟩
    rw [Universe.get_index, Nat.mul_comm]
    exact Nat.div_add_mod i u.width
  have hnl : nl = (List.range (u.width * u.height)).map (newAt u) := by
    apply list_eq_of_fbsGet
    · rw [hlen, hWF]
      simp
    · intro j
      by_cases hj : j < u.width * u.height
      · obtain ⟨hjm, hjeq⟩ := hdecomp j hj
        have := hmem _ hjm
        rw [hjeq] at this
        rw [this, fbsGet_map_range _ _ _ hj]
        simp only [newValAt, newAt, hjeq]
      · have hout : ∀ p ∈ rowMajor u.height u.width,
            u.get_index p.1 p.2 ≠ j := by
          intro p hp hcontra
          have := hlt p hp
          rw [hcontra, hWF] at this
          omega
        rw [hframe j hout, fbsGet_of_le _ _ (by rw [hWF]; omega),
          fbsGet_of_le _ _ (by simp; omega)]
  have hch : (rowMajor u.height u.width).filterMap (fun p =>
        if newValAt u p != oldValAt u p
        then some (u.get_index p.1 p.2) else none) =
      (List.range (u.width * u.height)).filter
        (fun i => newAt u i != fbsGet u.current i) := by
    have hcongr : ∀ p ∈ rowMajor u.height u.width,
        (if newValAt u p != oldValAt u p
         then some (u.get_index p.1 p.2) else none) =
        ((fun i => if newAt u i != fbsGet u.current i then some i else none) ∘
          (fun (p : Nat × Nat) => p.1 * u.width + p.2)) p := by
      intro p hp
      have hp' := (mem_rowMajor u.height u.width p.1 p.2).mp (by simpa using hp)
      have hidx : u.get_index p.1 p.2 = p.1 * u.width + p.2 := rfl
      have hnv : newValAt u p = newAt u (p.1 * u.width + p.2) := by
        rw [newValAt, newAt, index_div _ _ _ hp'.2, index_mod _ _ _ hp'.2]
        rfl
      have hov : oldValAt u p = fbsGet u.current (p.1 * u.width + p.2) := rfl
      simp only [Function.comp, hidx, hnv, hov]
    rw [filterMap_congr_mem _ _ _ hcongr, ← List.filterMap_map,
      map_index_rowMajor, hsize, filterMap_if_eq_filter]
  rw [Universe.tick, heq, hnl]
  simp only [List.nil_append, hch]

/-! The `set_cells` loop, `clear` loop and pattern-stamp lemmas. -/

theorem setCellsLoop_spec (u : Universe) (ps : List (Nat × Nat)) :
    ∀ cur : List Bool,
      (∀ p ∈ ps, u.get_index p.1 p.2 < cur.length) →
      ∃ cur', setCellsLoop u ps cur = some cur' ∧
        cur'.length = cur.length ∧
        ∀ j, fbsGet cur' j =
          (fbsGet cur j || ps.any (fun p => u.get_index p.1 p.2 == j)) := by
  induction ps with
  | nil =>
    intro cur _
    exact ⟨cur, rfl, rfl, fun j => by simp⟩
  | cons q rest ih =>
    intro cur hlt
    have hq : u.get_index q.1 q.2 < cur.length := hlt q (by simp)
    obtain ⟨cur', heq, hlen, hget⟩ := ih (cur.set (u.get_index q.1 q.2) true)
      (fun p hp => by rw [List.length_set]; exact hlt p (by simp [hp]))
    have hstep : setCellsLoop u (q :: rest) cur =
        setCellsLoop u rest (cur.set (u.get_index q.1 q.2) true) := by
      rw [setCellsLoop]
      simp only [fbsSet, if_pos hq]
    refine ⟨cur', by rw [hstep, heq], by rw [hlen, List.length_set], ?_⟩
    intro j
    rw [hget j]
    by_cases hij : u.get_index q.1 q.2 = j
    · rw [← hij, fbsGet_set_self _ _ _ hq]
      simp
    · rw [fbsGet_set_ne _ _ _ _ hij]
      have hbe : (u.get_index q.1 q.2 == j) = false := by simpa using hij
      simp [List.any_cons, hbe]

theorem set_cells_spec (u : Universe) (ps : List (Nat × Nat))
    (hlt : ∀ p ∈ ps, u.get_index p.1 p.2 < u.current.length) :
    ∃ v, u.set_cells ps = some v ∧ v.width = u.width ∧ v.height = u.height ∧
      v.next = u.next ∧ v.changed_cells = u.changed_cells ∧
      v.current.length = u.current.length ∧
      ∀ j, fbsGet v.current j =
        (fbsGet u.current j || ps.any (fun p => u.get_index p.1 p.2 == j)) := by
  obtain ⟨cur', heq, hlen, hget⟩ := setCellsLoop_spec u ps u.current hlt
  refine ⟨{ u with current := cur' }, ?_, rfl, rfl, rfl, rfl, hlen, hget⟩
  rw [Universe.set_cells, heq]

theorem wrapOffsets_eq (u : Universe) (row column : Nat) (offs : List (Int × Int))
    (hh : 0 < u.height) (hw : 0 < u.width) :
    wrapOffsets u row column offs = some (offs.map (fun d =>
      ((((row : Int) + d.1).emod (u.height : Int)).toNat,
       (((column : Int) + d.2).emod (u.width : Int)).toNat))) := by
  have hh' : (u.height : Int) ≠ 0 := by exact_mod_cast Nat.pos_iff_ne_zero.mp hh
  have hw' : (u.width : Int) ≠ 0 := by exact_mod_cast Nat.pos_iff_ne_zero.mp hw
  induction offs with
  | nil => rfl
  | cons d rest ih =>
    rw [wrapOffsets]
    simp only [remEuclidToNat, if_neg hh', if_neg hw', ih]
    rw [List.map_cons]

theorem wrapped_mem_valid (u : Universe) (row column : Nat)
    (offs : List (Int × Int)) (hh : 0 < u.height) (hw : 0 < u.width) :
    ∀ p ∈ offs.map (fun d =>
      ((((row : Int) + d.1).emod (u.height : Int)).toNat,
       (((column : Int) + d.2).emod (u.width : Int)).toNat)),
      p.1 < u.height ∧ p.2 < u.width := by
  intro p hp
  obtain ⟨d, _, hd⟩ := List.mem_map.mp hp
  subst hd
  have hh' : (u.height : Int) ≠ 0 := by exact_mod_cast Nat.pos_iff_ne_zero.mp hh
  have hw' : (u.width : Int) ≠ 0 := by exact_mod_cast Nat.pos_iff_ne_zero.mp hw
  constructor
  · have h1 : 0 ≤ ((row : Int) + d.1).emod (u.height : Int) := Int.emod_nonneg _ hh'
    have h2 : ((row : Int) + d.1).emod (u.height : Int) < (u.height : Int) :=
      Int.emod_lt_of_pos _ (by exact_mod_cast hh)
    omega
  · have h1 : 0 ≤ ((column : Int) + d.2).emod (u.width : Int) := Int.emod_nonneg _ hw'
    have h2 : ((column : Int) + d.2).emod (u.width : Int) < (u.width : Int) :=
      Int.emod_lt_of_pos _ (by exact_mod_cast hw)
    omega

theorem insertPatternAt_spec (u : Universe) (row column : Nat)
    (offs : List (Int × Int)) (hh : 0 < u.height) (hw : 0 < u.width)
    (hlen : u.current.length = u.width * u.height) :
    ∃ v, insertPatternAt u row column offs = some v ∧
      v.width = u.width ∧ v.height = u.height ∧ v.next = u.next ∧
      v.changed_cells = u.changed_cells ∧
      ∀ r, r < u.height → ∀ c, c < u.width →
        (fbsGet v.current (u.get_index r c) = true ↔
          (fbsGet u.current (u.get_index r c) = true ∨
            (r, c) ∈ offs.map (fun d =>
              ((((row : Int) + d.1).emod (u.height : Int)).toNat,
               (((column : Int) + d.2).emod (u.width : Int)).toNat)))) := by
  have hvalid := wrapped_mem_valid u row column offs hh hw
  have hlt : ∀ p ∈ offs.map (fun d =>
      ((((row : Int) + d.1).emod (u.height : Int)).toNat,
       (((column : Int) + d.2).emod (u.width : Int)).toNat)),
      u.get_index p.1 p.2 < u.current.length := by
    intro p hp
    have hv := hvalid p hp
    rw [hlen, Nat.mul_comm]
    exact index_lt _ _ _ _ hv.1 hv.2
  obtain ⟨v, heq, hwid, hht, hnx, hch, hln, hget⟩ := set_cells_spec u _ hlt
  refine ⟨v, ?_, hwid, hht, hnx, hch, ?_⟩
  · rw [insertPatternAt, wrapOffsets_eq u row column offs hh hw]
    exact heq
  · intro r hr c hc
    rw [hget (u.get_index r c), Bool.or_eq_true, List.any_eq_true]
    refine or_congr Iff.rfl ?_
    constructor
    · rintro ⟨p, hp, hpe⟩
      have hpe' : p.1 * u.width + p.2 = r * u.width + c := by simpa using hpe
      have hv := hvalid p hp
      obtain ⟨h1, h2⟩ := index_inj p.1 p.2 r c u.width hv.2 hc hpe'
      have hpp : p = (r, c) := by
        cases p
        dsimp only at h1 h2
        rw [h1, h2]
      rwa [hpp] at hp
    · intro hmem
      exact ⟨(r, c), hmem, by simp⟩

theorem clearLoop_spec (is : List Nat) :
    ∀ (cur : List Bool) (changed : List Nat),
      (∀ i ∈ is, i < cur.length) →
      ∃ cur', clearLoop is cur changed = some (cur', changed ++ is) ∧
        cur'.length = cur.length ∧
        ∀ j, fbsGet cur' j = if j ∈ is then false else fbsGet cur j := by
  induction is with
  | nil =>
    intro cur changed _
    exact ⟨cur, by simp [clearLoop], rfl, fun j => by simp⟩
  | cons i rest ih =>
    intro cur changed hlt
    have hi : i < cur.length := hlt i (by simp)
    obtain ⟨cur', heq, hlen, hget⟩ := ih (cur.set i false) (changed ++ [i])
      (fun x hx => by rw [List.length_set]; exact hlt x (by simp [hx]))
    have hstep : clearLoop (i :: rest) cur changed =
        clearLoop rest (cur.set i false) (changed ++ [i]) := by
      rw [clearLoop]
      simp only [fbsSet, if_pos hi]
    refine ⟨cur', ?_, by rw [hlen, List.length_set], ?_⟩
    · rw [hstep, heq, List.append_assoc]
      rfl
    · intro j
      rw [hget j]
      by_cases hj : j ∈ rest
      · simp [hj]
      · by_cases hij : j = i
        · subst hij
          simp only [hj, if_false, List.mem_cons, true_or, if_true]
          exact fbsGet_set_self _ _ _ hi
        · have hmem : j ∈ i :: rest ↔ False := by simp [hij, hj]
          simp only [hj, if_false, hmem]
          exact fbsGet_set_ne _ _ _ _ (fun h => hij h.symm)

/-- Closed form of `Universe::clear` for a well-sized `current` buffer: all
cells dead, and `changed_cells` rebuilt as the list of all indices,
regardless of which cells were alive. -/
theorem clear_eq (u : Universe) (hlen : u.current.length = u.width * u.height) :
    u.clear = some { u with
      current := List.replicate (u.width * u.height) false,
      changed_cells := List.range (u.width * u.height) } := by
  obtain ⟨cur', heq, hlen', hget⟩ := clearLoop_spec (List.range (u.width * u.height))
    u.current [] (fun i hi => by rw [hlen]; exact List.mem_range.mp hi)
  have hcur : cur' = List.replicate (u.width * u.height) false := by
    apply list_eq_of_fbsGet
    · rw [hlen', hlen]
      simp
    · intro j
      rw [hget j, fbsGet_replicate_false]
      by_cases hj : j < u.width * u.height
      · simp [List.mem_range, hj]
      · simp only [List.mem_range, hj, if_false]
        exact fbsGet_of_le _ _ (by omega)
  rw [Universe.clear, heq, hcur]
  simp

/-! Concrete universes used by the witnesses. -/

/-- A 2 × 2 universe with three live cells, a well-sized dead `next` buffer
and a stale delta list. -/
def U22 : Universe :=
  ⟨2, 2, [true, true, true, false], [false, false, false, false], [3]⟩

/-- Like `U22` but with different hidden state (`next` contents and delta
list): the same grid as far as the spec is concerned. -/
def U22b : Universe :=
  ⟨2, 2, [true, true, true, false], [true, true, true, true], []⟩

/-- An all-dead 4 × 4 universe. -/
def U44 : Universe :=
  ⟨4, 4, List.replicate 16 false, List.replicate 16 false, []⟩

/-- An all-dead 5 × 5 universe. -/
def U55 : Universe :=
  ⟨5, 5, List.replicate 25 false, List.replicate 25 false, []⟩

/-- A 3 × 3 universe whose only live cell is `(0, 0)`. -/
def U33 : Universe :=
  ⟨3, 3, (List.replicate 9 false).set 0 true, List.replicate 9 false, []⟩

/-- An `h × w` universe whose only live cell is `(0, 0)` (`h` rows, `w`
columns). -/
def cornerProbe (h w : Nat) : Universe :=
  ⟨w, h, (List.replicate (h * w) false).set 0 true,
    List.replicate (h * w) false, []⟩

/-! The claims. -/

/-- Claim C1: a single `tick` replaces the current generation with the one
computed cell-by-cell from the read-only pre-tick snapshot: a cell is alive
after the tick iff it was alive with exactly 2 or 3 live toroidal neighbors
or dead with exactly 3, every neighbor count being taken in the pre-tick
grid (the rule `match` evaluates underpopulation, survival, overpopulation,
reproduction, otherwise-unchanged in that order). -/
theorem C1_tick_rule (u : Universe) (hWF : u.next.length = u.width * u.height)
    (row column : Nat) (hr : row < u.height) (hc : column < u.width) :
    ∃ v, u.tick = some v ∧
      (fbsGet v.current (u.get_index row column) = true ↔
        ((fbsGet u.current (u.get_index row column) = true ∧
            (u.live_neighbor_count row column = 2 ∨
             u.live_neighbor_count row column = 3)) ∨
         (fbsGet u.current (u.get_index row column) = false ∧
            u.live_neighbor_count row column = 3))) := by
  have hidx : u.get_index row column < u.width * u.height := by
    have h1 := index_lt row column u.height u.width hr hc
    rw [Nat.mul_comm u.height u.width] at h1
    exact h1
  refine ⟨_, tick_eq u hWF, ?_⟩
  show fbsGet ((List.range (u.width * u.height)).map (newAt u))
      (u.get_index row column) = true ↔ _
  rw [fbsGet_map_range _ _ _ hidx, newAt]
  have h1 : u.get_index row column / u.width = row := index_div _ _ _ hc
  have h2 : u.get_index row column % u.width = column := index_mod _ _ _ hc
  rw [h1, h2]
  exact nextCellValue_iff _ _

/-- Witness for C1 at the concrete universe `U22`, cell `(0, 0)`. -/
theorem C1_tick_rule_witness :
    (U22.next.length = U22.width * U22.height ∧ 0 < U22.height ∧ 0 < U22.width) ∧
    (∃ v, U22.tick = some v ∧
      (fbsGet v.current (U22.get_index 0 0) = true ↔
        ((fbsGet U22.current (U22.get_index 0 0) = true ∧
            (U22.live_neighbor_count 0 0 = 2 ∨ U22.live_neighbor_count 0 0 = 3)) ∨
         (fbsGet U22.current (U22.get_index 0 0) = false ∧
            U22.live_neighbor_count 0 0 = 3)))) :=
  ⟨⟨by decide, by decide, by decide⟩,
   C1_tick_rule U22 (by decide) 0 0 (by decide) (by decide)⟩

/-- Claim C2: after a `tick`, `changed_cells` is exactly the ascending
(row-major) list of the indices whose alive-state differs between the
pre-tick and post-tick grids, and the list is rebuilt from scratch — the
result does not depend on the stale `changed_cells` contents. -/
theorem C2_changed_list (u : Universe) (hWF : u.next.length = u.width * u.height) :
    ∃ v, u.tick = some v ∧
      v.changed_cells = (List.range (u.width * u.height)).filter
        (fun i => fbsGet v.current i != fbsGet u.current i) ∧
      ∀ stale, Universe.tick { u with changed_cells := stale } = u.tick := by
  refine ⟨_, tick_eq u hWF, ?_, ?_⟩
  · show (List.range (u.width * u.height)).filter
        (fun i => newAt u i != fbsGet u.current i) =
      (List.range (u.width * u.height)).filter
        (fun i => fbsGet ((List.range (u.width * u.height)).map (newAt u)) i !=
          fbsGet u.current i)
    refine List.filter_congr ?_
    intro i hi
    rw [fbsGet_map_range _ _ _ (List.mem_range.mp hi)]
  · intro stale
    rw [tick_eq u hWF, tick_eq { u with changed_cells := stale } hWF]
    rfl

/-- Witness for C2 at the concrete universe `U22`. -/
theorem C2_changed_list_witness :
    U22.next.length = U22.width * U22.height ∧
    (∃ v, U22.tick = some v ∧
      v.changed_cells = (List.range (U22.width * U22.height)).filter
        (fun i => fbsGet v.current i != fbsGet U22.current i) ∧
      ∀ stale, Universe.tick { U22 with changed_cells := stale } = U22.tick) :=
  ⟨by decide, C2_changed_list U22 (by decide)⟩

/-- Claim C9: `tick` is deterministic — two universes agreeing on width,
height and cell contents (whatever their hidden `next` scratch buffers or
stale delta lists hold) stay equal under any positive number of ticks,
grids and changed lists included. -/
theorem C9_determinism (u₁ u₂ : Universe)
    (h₁ : u₁.next.length = u₁.width * u₁.height)
    (h₂ : u₂.next.length = u₂.width * u₂.height)
    (hw : u₁.width = u₂.width) (hh : u₁.height = u₂.height)
    (hc : u₁.current = u₂.current) (n : Nat) :
    Universe.tickN (n + 1) u₁ = Universe.tickN (n + 1) u₂ := by
  have htick : u₁.tick = u₂.tick := by
    rw [tick_eq u₁ h₁, tick_eq u₂ h₂]
    obtain ⟨w1, ht1, c1, n1, cc1⟩ := u₁
    obtain ⟨w2, ht2, c2, n2, cc2⟩ := u₂
    dsimp only at hw hh hc
    subst hw
    subst hh
    subst hc
    rfl
  simp only [Universe.tickN, htick]

/-- Witness for C9: `U22` and `U22b` share the grid but differ in hidden
state; one tick from each gives the same result. -/
theorem C9_determinism_witness :
    (U22.next.length = U22.width * U22.height ∧
     U22b.next.length = U22b.width * U22b.height ∧
     U22.width = U22b.width ∧ U22.height = U22b.height ∧
     U22.current = U22b.current) ∧
    Universe.tickN 1 U22 = Universe.tickN 1 U22b :=
  ⟨⟨by decide, by decide, by decide, by decide, by decide⟩,
   C9_determinism U22 U22b (by decide) (by decide) (by decide) (by decide)
     (by decide) 0⟩

/-- Claim C3 counterexample: `clear` on a 1 × 1 universe pushes index 0 into
the changed list even when the cell was already dead. In particular, after a
first `clear` (second equation, starting from the post-clear state with its
one dead cell) the second `clear` reports `[0]`, not the empty list the
claim demands. -/
theorem C3_counterexample :
    Universe.clear ⟨1, 1, [true], [false], []⟩ =
      some ⟨1, 1, [false], [false], [0]⟩ ∧
    Universe.clear ⟨1, 1, [false], [false], [0]⟩ =
      some ⟨1, 1, [false], [false], [0]⟩ ∧
    fbsGet (⟨1, 1, [false], [false], [0]⟩ : Universe).current 0 = false ∧
    ([0] : List Nat) ≠ [] := by
  refine ⟨by decide, by decide, by decide, by decide⟩

/-- Claim C3 amended: `clear` sets every cell dead but populates the changed
list with every index `0 .. width*height - 1` unconditionally, regardless of
which cells were alive before the call; consequently a second consecutive
`clear` reports the same full index list again (empty only for an empty
grid), not the empty list. -/
theorem C3_clear_amended (u : Universe)
    (hlen : u.current.length = u.width * u.height) :
    u.clear = some { u with
      current := List.replicate (u.width * u.height) false,
      changed_cells := List.range (u.width * u.height) } ∧
    Option.bind u.clear Universe.clear = some { u with
      current := List.replicate (u.width * u.height) false,
      changed_cells := List.range (u.width * u.height) } := by
  have h1 := clear_eq u hlen
  refine ⟨h1, ?_⟩
  rw [h1]
  show Universe.clear { u with
      current := List.replicate (u.width * u.height) false,
      changed_cells := List.range (u.width * u.height) } = _
  rw [clear_eq _ (by simp)]

/-- Witness for the amended C3 at a concrete 1 × 2 universe with one live
cell. -/
theorem C3_clear_amended_witness :
    (Universe.current ⟨2, 1, [true, false], [false, false], []⟩).length =
      (Universe.width ⟨2, 1, [true, false], [false, false], []⟩) *
      (Universe.height ⟨2, 1, [true, false], [false, false], []⟩) ∧
    (Universe.clear ⟨2, 1, [true, false], [false, false], []⟩ =
      some { (⟨2, 1, [true, false], [false, false], []⟩ : Universe) with
        current := List.replicate 2 false, changed_cells := List.range 2 } ∧
     Option.bind (Universe.clear ⟨2, 1, [true, false], [false, false], []⟩)
        Universe.clear =
      some { (⟨2, 1, [true, false], [false, false], []⟩ : Universe) with
        current := List.replicate 2 false, changed_cells := List.range 2 }) :=
  ⟨by decide, C3_clear_amended ⟨2, 1, [true, false], [false, false], []⟩ (by decide)⟩

/-- Claim C4 counterexample: on an all-dead 4 × 4 grid, `toggle_cell(0, 5)`
has its column out of range, yet it is not rejected: the write silently
lands on the in-range aliased index `0 * 4 + 5 = 5` (cell `(1, 1)`) and the
grid is mutated. -/
theorem C4_counterexample :
    ¬ (5 < U44.width) ∧
    U44.toggle_cell 0 5 =
      some ⟨4, 4, (List.replicate 16 false).set 5 true,
        List.replicate 16 false, []⟩ ∧
    (List.replicate 16 false).set 5 true ≠ List.replicate 16 false := by
  refine ⟨by decide, by decide, by decide⟩

/-- Claim C4 amended: no argument validation is performed. Both
`toggle_cell` and `set_cells` compute `row * width + column` directly:
whenever that flat index is inside the backing storage the aliased bit is
written (the grid is mutated even for `column ≥ width`), and only when the
index reaches past the storage does the bit-set write panic; `set_width 0` /
`set_height 0` are accepted and produce an empty all-dead grid rather than
being rejected. -/
theorem C4_amended (u : Universe) (row column : Nat) :
    (u.get_index row column < u.current.length →
      u.toggle_cell row column = some { u with
        current := u.current.set (u.get_index row column)
          (!(fbsGet u.current (u.get_index row column))) }) ∧
    (u.current.length ≤ u.get_index row column →
      u.toggle_cell row column = none) ∧
    (u.get_index row column < u.current.length →
      u.set_cells [(row, column)] = some { u with
        current := u.current.set (u.get_index row column) true }) ∧
    (u.current.length ≤ u.get_index row column →
      u.set_cells [(row, column)] = none) ∧
    (u.set_width 0).width = 0 ∧ (u.set_width 0).current = [] ∧
    (u.set_height 0).height = 0 ∧ (u.set_height 0).current = [] := by
  refine ⟨?_, ?_, ?_, ?_, rfl, ?_, rfl, ?_⟩
  · intro h
    rw [Universe.toggle_cell]
    simp only [fbsSet, if_pos h]
  · intro h
    rw [Universe.toggle_cell]
    simp only [fbsSet, if_neg (Nat.not_lt.mpr h)]
  · intro h
    rw [Universe.set_cells, setCellsLoop]
    simp only [fbsSet, if_pos h]
    rfl
  · intro h
    rw [Universe.set_cells, setCellsLoop]
    simp only [fbsSet, if_neg (Nat.not_lt.mpr h)]
  · simp [Universe.set_width, deadLoop]
  · simp [Universe.set_height, deadLoop]

/-- Witness for the amended C4: on `U44`, `(0, 5)` mutates the aliased bit 5
through both `toggle_cell` and `set_cells`, and `(4, 0)` (flat index 16)
makes both panic. -/
theorem C4_amended_witness :
    (U44.get_index 0 5 < U44.current.length ∧
      U44.toggle_cell 0 5 = some { U44 with
        current := U44.current.set (U44.get_index 0 5)
          (!(fbsGet U44.current (U44.get_index 0 5))) }) ∧
    (U44.current.length ≤ U44.get_index 4 0 ∧ U44.toggle_cell 4 0 = none) ∧
    (U44.get_index 0 5 < U44.current.length ∧
      U44.set_cells [(0, 5)] = some { U44 with
        current := U44.current.set (U44.get_index 0 5) true }) ∧
    (U44.current.length ≤ U44.get_index 4 0 ∧ U44.set_cells [(4, 0)] = none) :=
  ⟨⟨by decide, (C4_amended U44 0 5).1 (by decide)⟩,
   ⟨by decide, (C4_amended U44 4 0).2.1 (by decide)⟩,
   ⟨by decide, (C4_amended U44 0 5).2.2.1 (by decide)⟩,
   ⟨by decide, (C4_amended U44 4 0).2.2.2.1 (by decide)⟩⟩

/-- Claim C5 (the code contradicts it): `set_width` / `set_height`
reallocate only `current` and leave the `next` scratch buffer at its old
size; the next `tick` swaps that stale buffer in, so after
`set_width 1; tick()` on a 2 × 2 universe the live storage has length 4
while `width * height = 2`. -/
theorem C5_resize_tick_bug :
    (Universe.set_width ⟨2, 2, List.replicate 4 false, List.replicate 4 false, []⟩
      1).next.length = 4 ∧
    (Universe.set_width ⟨2, 2, List.replicate 4 false, List.replicate 4 false, []⟩
      1).current.length = 2 ∧
    ((Universe.set_width ⟨2, 2, List.replicate 4 false, List.replicate 4 false, []⟩
      1).tick).map (fun v => (v.current.length, v.width * v.height)) =
      some (4, 2) := by
  refine ⟨by decide, by decide, by decide⟩

/-- Claim C6: both pattern stamps mark alive exactly the cells of their
offset tables, each wrapped around the anchor by the true (always
non-negative) modulo `Int.emod`, leaving every other cell as it was. -/
theorem C6_pattern_stamps (u : Universe) (hh : 0 < u.height) (hw : 0 < u.width)
    (hlen : u.current.length = u.width * u.height) (row column : Nat) :
    (∃ v, u.insert_glider_at row column = some v ∧
      ∀ r, r < u.height → ∀ c, c < u.width →
        (fbsGet v.current (u.get_index r c) = true ↔
          (fbsGet u.current (u.get_index r c) = true ∨
            (r, c) ∈ glider_offsets.map (fun d =>
              ((((row : Int) + d.1).emod (u.height : Int)).toNat,
               (((column : Int) + d.2).emod (u.width : Int)).toNat))))) ∧
    (∃ v, u.insert_pulsar_at row column = some v ∧
      ∀ r, r < u.height → ∀ c, c < u.width →
        (fbsGet v.current (u.get_index r c) = true ↔
          (fbsGet u.current (u.get_index r c) = true ∨
            (r, c) ∈ pulsar_offsets.map (fun d =>
              ((((row : Int) + d.1).emod (u.height : Int)).toNat,
               (((column : Int) + d.2).emod (u.width : Int)).toNat))))) := by
  constructor
  · obtain ⟨v, heq, _, _, _, _, hiff⟩ :=
      insertPatternAt_spec u row column glider_offsets hh hw hlen
    exact ⟨v, heq, hiff⟩
  · obtain ⟨v, heq, _, _, _, _, hiff⟩ :=
      insertPatternAt_spec u row column pulsar_offsets hh hw hlen
    exact ⟨v, heq, hiff⟩

/-- Witness for C6 on the all-dead `U55` with anchor `(0, 0)` (so both
stamps actually wrap around the edges). -/
theorem C6_pattern_stamps_witness :
    (0 < U55.height ∧ 0 < U55.width ∧
      U55.current.length = U55.width * U55.height) ∧
    ((∃ v, U55.insert_glider_at 0 0 = some v ∧
      ∀ r, r < U55.height → ∀ c, c < U55.width →
        (fbsGet v.current (U55.get_index r c) = true ↔
          (fbsGet U55.current (U55.get_index r c) = true ∨
            (r, c) ∈ glider_offsets.map (fun d =>
              ((((0 : Nat) : Int) + d.1).emod (U55.height : Int) |>.toNat,
               (((0 : Nat) : Int) + d.2).emod (U55.width : Int) |>.toNat))))) ∧
     (∃ v, U55.insert_pulsar_at 0 0 = some v ∧
      ∀ r, r < U55.height → ∀ c, c < U55.width →
        (fbsGet v.current (U55.get_index r c) = true ↔
          (fbsGet U55.current (U55.get_index r c) = true ∨
            (r, c) ∈ pulsar_offsets.map (fun d =>
              ((((0 : Nat) : Int) + d.1).emod (U55.height : Int) |>.toNat,
               (((0 : Nat) : Int) + d.2).emod (U55.width : Int) |>.toNat)))))) :=
  ⟨⟨by decide, by decide, by decide⟩,
   C6_pattern_stamps U55 (by decide) (by decide) (by decide) 0 0⟩

/-- Claim C7 counterexample: on the 3 × 3 grid `U33` whose only live cell is
`(0, 0)`, the NW lookup of corner cell `(2, 2)` resolves to the interior
cell `(1, 1)` — not to `(0, 0)` — and contributes 0 to the count; the
count of 1 comes from the wrapped SE lookup, which is the one that resolves
to `(0, 0)`. -/
theorem C7_counterexample :
    (northOf U33 2, westOf U33 2) = (1, 1) ∧
    ((1, 1) : Nat × Nat) ≠ (0, 0) ∧
    fbsGet U33.current (U33.get_index (northOf U33 2) (westOf U33 2)) = false ∧
    (southOf U33 2, eastOf U33 2) = (0, 0) ∧
    fbsGet U33.current (U33.get_index (southOf U33 2) (eastOf U33 2)) = true ∧
    U33.live_neighbor_count 2 2 = 1 := by
  refine ⟨by decide, by decide, by decide, by decide, by decide, by decide⟩

/-- Eight booleans sum to at most 8. -/
theorem bool8_sum_le (a b c d e f g h : Bool) :
    a.toNat + b.toNat + c.toNat + d.toNat + e.toNat + f.toNat + g.toNat +
      h.toNat ≤ 8 := by
  cases a <;> cases b <;> cases c <;> cases d <;> cases e <;> cases f <;>
    cases g <;> cases h <;> decide

/-- Claim C7 amended: on an `N × M` grid whose only live cell is `(0, 0)`,
the live-neighbor count of the corner `(N-1, M-1)` receives its contribution
of 1 from the toroidally wrapped SE lookup `(south, east)`, which resolves
to `(0, 0)` (equivalently, the corner is `(0, 0)`'s NW neighbor) — not from
the NW lookup; the count is the sum of exactly 8 wrapped lookups with
`north/south/west/east` as in the source and always lies in `0 .. 8`. -/
theorem C7_amended (h w : Nat) (hh : 0 < h) (hw : 0 < w) :
    (∀ (u : Universe) (row column : Nat),
      u.live_neighbor_count row column ≤ 8) ∧
    southOf (cornerProbe h w) (h - 1) = 0 ∧
    eastOf (cornerProbe h w) (w - 1) = 0 ∧
    fbsGet (cornerProbe h w).current
      ((cornerProbe h w).get_index (southOf (cornerProbe h w) (h - 1))
        (eastOf (cornerProbe h w) (w - 1))) = true ∧
    1 ≤ (cornerProbe h w).live_neighbor_count (h - 1) (w - 1) := by
  have hbound : ∀ (u : Universe) (row column : Nat),
      u.live_neighbor_count row column ≤ 8 := by
    intro u row column
    rw [Universe.live_neighbor_count]
    exact bool8_sum_le _ _ _ _ _ _ _ _
  have hsouth : southOf (cornerProbe h w) (h - 1) = 0 := by
    simp [southOf, cornerProbe]
  have heast : eastOf (cornerProbe h w) (w - 1) = 0 := by
    simp [eastOf, cornerProbe]
  have hzero : (cornerProbe h w).get_index 0 0 = 0 := by
    simp [Universe.get_index]
  have hse : fbsGet (cornerProbe h w).current
      ((cornerProbe h w).get_index 0 0) = true := by
    rw [hzero]
    exact fbsGet_set_self _ _ _ (by
      simp only [cornerProbe, List.length_set, List.length_replicate]
      exact Nat.mul_pos hh hw)
  refine ⟨hbound, hsouth, heast, by rw [hsouth, heast]; exact hse, ?_⟩
  rw [Universe.live_neighbor_count, hsouth, heast, hse]
  simp

/-- Witness for the amended C7 at `N = M = 3` (where the NW lookup of the
corner demonstrably differs from the contributing SE lookup). -/
theorem C7_amended_witness :
    (0 < 3 ∧ 0 < 3) ∧
    ((∀ (u : Universe) (row column : Nat),
        u.live_neighbor_count row column ≤ 8) ∧
     southOf (cornerProbe 3 3) 2 = 0 ∧
     eastOf (cornerProbe 3 3) 2 = 0 ∧
     fbsGet (cornerProbe 3 3).current
       ((cornerProbe 3 3).get_index (southOf (cornerProbe 3 3) 2)
         (eastOf (cornerProbe 3 3) 2)) = true ∧
     1 ≤ (cornerProbe 3 3).live_neighbor_count 2 2) :=
  ⟨⟨by decide, by decide⟩, C7_amended 3 3 (by decide) (by decide)⟩

/-- Claim C8: `set_width w` (resp. `set_height h`) unconditionally discards
the grid contents: the resulting current storage is the all-dead buffer of
length `new dimension * other current dimension`, whatever was alive
before. -/
theorem C8_resize_discards (u : Universe) (w h : Nat) :
    ((u.set_width w).width = w ∧ (u.set_width w).height = u.height ∧
      (u.set_width w).current = List.replicate (w * u.height) false ∧
      (u.set_width w).current.length = w * (u.set_width w).height) ∧
    ((u.set_height h).height = h ∧ (u.set_height h).width = u.width ∧
      (u.set_height h).current = List.replicate (h * u.width) false ∧
      (u.set_height h).current.length = h * (u.set_height h).width) := by
  have hwc : (u.set_width w).current = List.replicate (w * u.height) false :=
    deadLoop_replicate _ _
  have hhc : (u.set_height h).current = List.replicate (h * u.width) false :=
    deadLoop_replicate _ _
  refine ⟨⟨rfl, rfl, hwc, ?_⟩, ⟨rfl, rfl, hhc, ?_⟩⟩
  · rw [hwc, List.length_replicate]
    rfl
  · rw [hhc, List.length_replicate]
    rfl

/-- Lemma: `set_cells` never touches `changed_cells`. -/
theorem set_cells_changed (u : Universe) (ps : List (Nat × Nat)) (v : Universe)
    (hv : u.set_cells ps = some v) : v.changed_cells = u.changed_cells := by
  rw [Universe.set_cells] at hv
  cases hloop : setCellsLoop u ps u.current with
  | none => rw [hloop] at hv; cases hv
  | some cur =>
    rw [hloop] at hv
    cases hv
    rfl

/-- Claim C10: the direct-mutation operations (`toggle_cell`, `set_cells`,
`randomize`, and through `set_cells` both pattern stamps) and the resize
operations leave `changed_cells` exactly as it was; among the embedded
operations only `tick` and `clear` rebuild it. -/
theorem C10_frame (u : Universe) :
    (∀ row column v, u.toggle_cell row column = some v →
      v.changed_cells = u.changed_cells) ∧
    (∀ ps v, u.set_cells ps = some v → v.changed_cells = u.changed_cells) ∧
    (∀ rand v, u.randomize rand = some v →
      v.changed_cells = u.changed_cells) ∧
    (∀ row column v, u.insert_glider_at row column = some v →
      v.changed_cells = u.changed_cells) ∧
    (∀ row column v, u.insert_pulsar_at row column = some v →
      v.changed_cells = u.changed_cells) ∧
    (∀ w, (u.set_width w).changed_cells = u.changed_cells) ∧
    (∀ h, (u.set_height h).changed_cells = u.changed_cells) := by
  refine ⟨?_, fun ps v hv => set_cells_changed u ps v hv, ?_, ?_, ?_,
    fun w => rfl, fun h => rfl⟩
  · intro row column v hv
    simp only [Universe.toggle_cell] at hv
    cases hset : fbsSet u.current (u.get_index row column)
        (!(fbsGet u.current (u.get_index row column))) with
    | none => rw [hset] at hv; cases hv
    | some cur =>
      rw [hset] at hv
      cases hv
      rfl
  · intro rand v hv
    rw [Universe.randomize] at hv
    cases hloop : randomizeLoop rand (List.range (u.width * u.height))
        u.current with
    | none => rw [hloop] at hv; cases hv
    | some cur =>
      rw [hloop] at hv
      cases hv
      rfl
  · intro row column v hv
    rw [Universe.insert_glider_at, insertPatternAt] at hv
    cases hwrap : wrapOffsets u row column glider_offsets with
    | none => rw [hwrap] at hv; cases hv
    | some ps =>
      rw [hwrap] at hv
      exact set_cells_changed u ps v hv
  · intro row column v hv
    rw [Universe.insert_pulsar_at, insertPatternAt] at hv
    cases hwrap : wrapOffsets u row column pulsar_offsets with
    | none => rw [hwrap] at hv; cases hv
    | some ps =>
      rw [hwrap] at hv
      exact set_cells_changed u ps v hv

/-- Witness for C10 on `U22` (whose stale delta list `[3]` is preserved by a
toggle). -/
theorem C10_frame_witness :
    U22.toggle_cell 0 0 =
      some { U22 with current := [false, true, true, false] } ∧
    Universe.changed_cells
      { U22 with current := [false, true, true, false] } = U22.changed_cells :=
  ⟨by decide, (C10_frame U22).1 0 0
    { U22 with current := [false, true, true, false] } (by decide)⟩

end GoL
